import Mathlib

/-!
Verification of the catalog-driven SQL safety gateway of the
ai-analytics-service repository.

The definitions below are a shallow embedding of the TypeScript sources:
  * `src/src/ai/catalog/types.ts`   — SQL validator (`validateSql` and helpers)
  * `src/src/ai/sql/allowlist.ts`   — `buildAllowlist`
  * `src/app/api/chat/catalog-search.ts` — `searchCatalog`, `calculateRelevanceScore`
  * `src/app/api/chat/query-executor.ts` — SQL generator and orchestrator
  * `src/unnamed/part_003`          — direct-SQL executor tool

JavaScript strings are modelled as Lean `String`/`List Char` with ASCII
case folding (`Char.toLower`), JS `Map`/`Set` as insertion-ordered
association lists / duplicate-free lists, thrown `SqlValidationError`s as
`Except String`, and the external query-execution client (`runSelect`) as an
explicit function argument.  File and network I/O (catalog loading,
ClickHouse transport) is out of scope: the loaded catalog is a parameter.
-/

set_option maxRecDepth 10000

namespace AiAnalytics

/-! ### Basic JS-string helpers -/

/-- Character class `\w` of JS regexes: `[A-Za-z0-9_]`. -/
def isWordChar (c : Char) : Bool := c.isAlpha || c.isDigit || c == '_'

/-- Whitespace characters recognised by `\s` (core ASCII set). -/
def isWsChar (c : Char) : Bool :=
  c == ' ' || c == '\t' || c == '\n' || c == '\r' || c == '\x0b' || c == '\x0c'

/-- Character-wise lower casing, modelling `String.prototype.toLowerCase`. -/
def lowerStr (s : String) : String := ⟨s.data.map Char.toLower⟩

/-- Scan for `sub` as a prefix of any suffix: JS `String.prototype.includes`. -/
def strContainsFrom (needle : List Char) : List Char → Bool
  | [] => needle.isEmpty
  | c :: cs => needle.isPrefixOf (c :: cs) || strContainsFrom needle cs

/-- JS `s.includes(sub)`. -/
def strContains (s sub : String) : Bool := strContainsFrom sub.data s.data

/-- Does the string contain the given character? (JS `s.includes(c)` for a
one-character needle). -/
def strContainsChar (s : String) (c : Char) : Bool := s.data.contains c

/-- Left boundary check of a `\b` anchor: position 0 or a non-word char before. -/
def boundaryBefore : Option Char → Bool
  | none => true
  | some c => ! isWordChar c

/-- Right boundary check of a `\b` anchor: end of input or a non-word char next. -/
def boundaryAfter : List Char → Bool
  | [] => true
  | c :: _ => ! isWordChar c

/-- Scan for an occurrence of `kw` delimited by `\b` on both sides.
`prev` is the character just before the current suffix. -/
def containsWordFrom (kw : List Char) (prev : Option Char) : List Char → Bool
  | [] => boundaryBefore prev && kw.isEmpty
  | c :: cs =>
    (boundaryBefore prev && kw.isPrefixOf (c :: cs) && boundaryAfter ((c :: cs).drop kw.length))
      || containsWordFrom kw (some c) cs

/-- Model of `new RegExp("\\b" + kw + "\\b").test(s)` for a keyword made of word
characters. -/
def containsWord (s kw : String) : Bool := containsWordFrom kw.data none s.data

/-- The same test with the `i` flag: the subject is lower-cased first
(`kw` is already lower case in the denylist). -/
def containsWordCI (s kw : String) : Bool := containsWord (lowerStr s) kw

/-- Split on `'.'` (JS `String.prototype.split('.')`): `""` gives `[""]`. -/
def splitDotsChars : List Char → List (List Char)
  | [] => [[]]
  | c :: cs =>
    if c = '.' then [] :: splitDotsChars cs
    else
      match splitDotsChars cs with
      | [] => [[c]]
      | p :: ps => (c :: p) :: ps

def splitDots (s : String) : List String := (splitDotsChars s.data).map String.mk

/-- Join with `'.'` (JS `Array.prototype.join('.')`). -/
def joinDots : List String → String
  | [] => ""
  | [p] => p
  | p :: ps => p ++ "." ++ joinDots ps

/-- JS `String.prototype.trim` (over the modelled whitespace set). -/
def trimStr (s : String) : String :=
  ⟨((s.data.dropWhile isWsChar).reverse.dropWhile isWsChar).reverse⟩

-- JS whitespace split (regex with one-or-more whitespace as separator):
-- split on whitespace runs; a leading run yields a leading `""`, a trailing
-- run a trailing `""`, and `""` gives `[""]`.  The state is `some acc` while
-- a segment is being accumulated (in reverse) and `none` right after a
-- separator run.
def jsSplitWsAux : Option (List Char) → List Char → List String
  | some acc, [] => [⟨acc.reverse⟩]
  | none, [] => [""]
  | some acc, c :: cs =>
    if isWsChar c then ⟨acc.reverse⟩ :: jsSplitWsAux none cs
    else jsSplitWsAux (some (c :: acc)) cs
  | none, c :: cs =>
    if isWsChar c then jsSplitWsAux none cs else jsSplitWsAux (some [c]) cs

def jsSplitWs (s : String) : List String := jsSplitWsAux (some []) s.data

/-! ### Insertion-ordered maps and sets (JS `Map` / `Set`) -/

/-- Model of `Map.prototype.set`: replace the value at an existing key in place,
otherwise append. -/
def mapSet {α : Type} : List (String × α) → String → α → List (String × α)
  | [], k, v => [(k, v)]
  | (k', v') :: rest, k, v =>
    if k' = k then (k, v) :: rest else (k', v') :: mapSet rest k v

/-- Model of `Map.prototype.get` (first matching key). -/
def mapLookup {α : Type} : List (String × α) → String → Option α
  | [], _ => none
  | (k', v) :: rest, k => if k' = k then some v else mapLookup rest k

/-- Model of `Set.prototype.add`: append if not yet present (insertion order kept). -/
def addUnique (l : List String) (x : String) : List String :=
  if l.contains x then l else l ++ [x]

/-- Model of `new Set(xs)` for a list of strings. -/
def setOfList (xs : List String) : List String := xs.foldl addUnique []

/-! ### Normalisation (`normalize` in `types.ts`) -/

-- Model of the line-comment replace (regex `--.*$` with flags `gm`): drop from
-- each `--` to the end of its line (line terminators survive).  The flag is
-- true while inside a line comment.
def stripLineAux : Bool → List Char → List Char
  | _, [] => []
  | false, '-' :: '-' :: cs => stripLineAux true cs
  | false, c :: cs => c :: stripLineAux false cs
  | true, c :: cs =>
    if c == '\n' || c == '\r' then c :: stripLineAux false cs
    else stripLineAux true cs

def stripLineComments (l : List Char) : List Char := stripLineAux false l

-- Model of the block-comment replace (non-greedy, global): remove block
-- comments up to the first closer; an unterminated opener is left in place,
-- since the regex requires a closer.  While inside a comment the state is
-- `some pending`, the text seen so far (opener included) in reverse, replayed
-- verbatim when the input ends with the comment still open.
def stripBlockAux : Option (List Char) → List Char → List Char
  | none, [] => []
  | none, '/' :: '*' :: cs => stripBlockAux (some ['*', '/']) cs
  | none, c :: cs => c :: stripBlockAux none cs
  | some pending, [] => pending.reverse
  | some _, '*' :: '/' :: cs => stripBlockAux none cs
  | some pending, c :: cs => stripBlockAux (some (c :: pending)) cs

def stripBlockComments (l : List Char) : List Char := stripBlockAux none l

-- Model of the whitespace-collapse replace (each whitespace run becomes one
-- space).  The flag is true while inside a whitespace run whose single space
-- was already emitted.
def collapseWsAux : Bool → List Char → List Char
  | _, [] => []
  | inWs, c :: cs =>
    if isWsChar c then
      if inWs then collapseWsAux true cs else ' ' :: collapseWsAux true cs
    else c :: collapseWsAux false cs

def collapseWsGo (l : List Char) : List Char := collapseWsAux false l

/-- Function `normalize` from `types.ts`: strip comments, collapse whitespace, trim. -/
def normalize (sql : String) : String :=
  trimStr ⟨collapseWsGo (stripBlockComments (stripLineComments sql.data))⟩

/-- Function `lower` from `types.ts`. -/
def lower (sql : String) : String := lowerStr sql

/-! ### The validator's gates (`types.ts`) -/

def FORBIDDEN_KEYWORDS : List String :=
  ["insert", "update", "delete", "drop", "alter", "create", "truncate",
   "optimize", "attach", "detach", "grant", "revoke", "system", "kill",
   "set", "use", "show", "describe", "explain"]

/-- Function `hasMultiStatement`: any semicolon anywhere. -/
def hasMultiStatement (sql : String) : Bool := strContainsChar sql ';'

/-- Function `startsWithSelectOrWith` from `types.ts`. -/
def startsWithSelectOrWith (sqlLower : String) : Bool :=
  ("select ".data.isPrefixOf sqlLower.data) || ("with ".data.isPrefixOf sqlLower.data)

/-- Function `containsForbidden`: first denylisted keyword matching `\b kw \b` (flag `i`). -/
def containsForbidden (sqlLower : String) : Option String :=
  FORBIDDEN_KEYWORDS.find? (fun kw => containsWordCI sqlLower kw)

/-- The select-star test of `validateSql` (word-delimited `select`,
case-insensitive, at least one whitespace, then a star). -/
def selectStarFrom (prev : Option Char) : List Char → Bool
  | [] => false
  | c :: cs =>
    (boundaryBefore prev
      && ("select".data.isPrefixOf (List.map Char.toLower (c :: cs)))
      && (match (c :: cs).drop 6 with
          | [] => false
          | d :: ds =>
            isWsChar d && (match ds.dropWhile isWsChar with
                           | '*' :: _ => true
                           | _ => false)))
      || selectStarFrom (some c) cs

def hasSelectStar (normalized : String) : Bool := selectStarFrom none normalized.data

/-- Characters admitted inside the captured table identifier:
the regex class ``[`"\w.]``. -/
def isTableChar (c : Char) : Bool := isWordChar c || c == '`' || c == '"' || c == '.'

/-- One attempt of the FROM-clause regex at the current suffix:
word-delimited `from`, at least one whitespace, then a maximal run of table
characters shrunk from the right until it ends in a word character
(the trailing `\b`). -/
def tryFromAt (prev : Option Char) (s : List Char) : Option (List Char) :=
  if boundaryBefore prev && ("from".data.isPrefixOf (List.map Char.toLower s)) then
    let rest := s.drop 4
    match rest with
    | [] => none
    | d :: _ =>
      if isWsChar d then
        let body := rest.dropWhile isWsChar
        let run := body.takeWhile isTableChar
        let captured := (run.reverse.dropWhile (fun c => ! isWordChar c)).reverse
        if captured.isEmpty then none else some captured
      else none
  else none

/-- Leftmost match of the `FROM`-clause regex. -/
def extractFromTableFrom (prev : Option Char) : List Char → Option (List Char)
  | [] => none
  | c :: cs =>
    match tryFromAt prev (c :: cs) with
    | some t => some t
    | none => extractFromTableFrom (some c) cs

/-- Function `extractFromTable` from `types.ts`. -/
def extractFromTable (normalizedSql : String) : Option String :=
  (extractFromTableFrom none normalizedSql.data).map String.mk

/-- Function `stripQuotesTable`: remove every backtick and double quote. -/
def stripQuotesTable (t : String) : String :=
  ⟨t.data.filter (fun c => ! (c == '`' || c == '"'))⟩

/-! ### Column extraction (`findReferencedColumns`) -/

/-- Scanner state of the identifier-token regex of `findReferencedColumns`
(an identifier optionally followed by one dotted identifier, applied
globally): outside a token, inside the first segment, just after the dot,
or inside the second segment.  Accumulators are reversed. -/
inductive TokState where
  | scan
  | ident (acc : List Char)
  | dot (acc : List Char)
  | second (acc : List Char)

/-- Global scan of the identifier-token regex.  A character that ends a
token cannot itself start one (a token starts with a letter or underscore),
so scanning resumes right after it. -/
def tokenizeGo : TokState → List Char → List String
  | .scan, [] => []
  | .scan, c :: cs =>
    if c.isAlpha || c == '_' then tokenizeGo (.ident [c]) cs else tokenizeGo .scan cs
  | .ident acc, [] => [⟨acc.reverse⟩]
  | .ident acc, c :: cs =>
    if isWordChar c then tokenizeGo (.ident (c :: acc)) cs
    else if c == '.' then tokenizeGo (.dot acc) cs
    else ⟨acc.reverse⟩ :: tokenizeGo .scan cs
  | .dot acc, [] => [⟨acc.reverse⟩]
  | .dot acc, c :: cs =>
    if c.isAlpha || c == '_' then tokenizeGo (.second (c :: '.' :: acc)) cs
    else ⟨acc.reverse⟩ :: tokenizeGo .scan cs
  | .second acc, [] => [⟨acc.reverse⟩]
  | .second acc, c :: cs =>
    if isWordChar c then tokenizeGo (.second (c :: acc)) cs
    else ⟨acc.reverse⟩ :: tokenizeGo .scan cs

def tokenizeChars (l : List Char) : List String := tokenizeGo .scan l

def tokenize (s : String) : List String := tokenizeChars s.data

/-- The fixed structural stop-word list (verbatim, including the
mixed-case entries that can never equal a lower-cased token). -/
def stopWords : List String :=
  ["select", "from", "where", "group", "by", "order", "limit", "with", "as",
   "and", "or", "not", "in", "is", "null", "asc", "desc", "distinct",
   "sum", "avg", "min", "max", "count", "date", "toDate", "toStartOfWeek",
   "having", "case", "when", "then", "else", "end", "on", "join", "inner",
   "left", "right", "full", "cross"]

/-- The table/schema segments of the `FROM` target: strip quotes, lower,
split on dots, trim each, drop empties. -/
def fromPartsOf (fromTable : String) : List String :=
  ((splitDots (lowerStr (stripQuotesTable fromTable))).map trimStr).filter
    (fun p => p ≠ "")

/-- Does the token survive every `continue` of the extraction loop? -/
def tokenKept (fromParts : List String) (fromTableStripped : String) (tok : String) : Bool :=
  let l := lowerStr tok
  if stopWords.contains l then false
  else if FORBIDDEN_KEYWORDS.contains l then false
  else
    let tokParts := splitDots l
    if tokParts.any (fun part => fromParts.contains part) then false
    else if fromParts.length > 1 && tokParts.length > 1
            && joinDots tokParts == fromTableStripped then false
    else true

/-- Last element of a list of segments (JS `pop()` on the non-empty result
of a split). -/
def lastSeg : List String → String
  | [] => ""
  | [p] => p
  | _ :: p :: ps => lastSeg (p :: ps)

/-- The column name a surviving token contributes: its last dotted segment. -/
def lastSegment (tok : String) : String :=
  if strContainsChar tok '.' then lastSeg (splitDots tok) else tok

/-- Function `findReferencedColumns` from `types.ts`. -/
def findReferencedColumns (normalizedSql fromTable : String) : List String :=
  let fromTableStripped := lowerStr (stripQuotesTable fromTable)
  let fromParts := fromPartsOf fromTable
  (tokenize normalizedSql).foldl
    (fun cols tok =>
      if tokenKept fromParts fromTableStripped tok then addUnique cols (lastSegment tok)
      else cols)
    []

/-! ### `validateSql` -/

structure ValidatedQuery where
  table : String
  referencedColumns : List String
deriving DecidableEq

/-- The final per-column allowlist loop of `validateSql`: the thrown error
names the first referenced column missing from the allowed set. -/
def checkColumns (allowedTable : String) (allowedCols : List String)
    (referenced : List String) : Except String ValidatedQuery :=
  match referenced.find? (fun c => ! allowedCols.contains c) with
  | some c => .error ("Column is not allowlisted: " ++ c)
  | none => .ok ⟨allowedTable, referenced⟩

/-- The `Allowlist` shape of `allowlist.ts`: insertion-ordered maps,
column sets as duplicate-free insertion-ordered lists. -/
structure Allowlist where
  tables : List (String × List String)
  modelToTable : List (String × String)
deriving DecidableEq

/-- Function `validateSql` from `types.ts`; a thrown `SqlValidationError` is `Except.error`. -/
def validateSql (sql : String) (allowlist : Allowlist) : Except String ValidatedQuery :=
  let normalized := normalize sql
  let sqlLower := lower normalized
  if normalized = "" then .error "SQL is empty."
  else if hasMultiStatement normalized then .error "Multi-statement SQL is not allowed."
  else if startsWithSelectOrWith sqlLower = false then .error "Only SELECT queries are allowed."
  else
    match containsForbidden sqlLower with
    | some kw => .error ("Forbidden keyword detected: " ++ kw)
    | none =>
      if hasSelectStar normalized then
        .error "SELECT * is not allowed. Specify columns explicitly."
      else
        match extractFromTable normalized with
        | none => .error "FROM clause not found."
        | some fromTableRaw =>
          let fromTableStripped := stripQuotesTable fromTableRaw
          match allowlist.tables.find? (fun p => stripQuotesTable p.1 == fromTableStripped) with
          | none => .error ("Table is not allowlisted: " ++ fromTableRaw)
          | some hit =>
            checkColumns hit.1 hit.2 (findReferencedColumns normalized fromTableRaw)

/-! ### Catalog data model (`types.ts`) and `buildAllowlist` (`allowlist.ts`) -/

/-- The `meta` record of a column; the generator only reads `meta?.type`. -/
structure ColumnMeta where
  type : Option String := none
deriving DecidableEq

/-- One entry of `AiCatalogModel.columns`. -/
structure ColumnInfo where
  description : Option String := none
  data_type : Option String := none
  meta : Option ColumnMeta := none
deriving DecidableEq

/-- The `AiCatalogModel` shape of `types.ts`; optional fields are `Option`,
the `columns` record is an insertion-ordered association list. -/
structure AiCatalogModel where
  name : String
  description : Option String := none
  domain : Option String := none
  grain : Option String := none
  schema : Option String := none
  relation_name : Option String := none
  dimensions : Option (List String) := none
  metrics : Option (List String) := none
  columns : List (String × ColumnInfo) := []
deriving DecidableEq

/-- The `AiCatalog` document shape. -/
structure AiCatalog where
  version : Int := 1
  generated_at : String := ""
  models : List AiCatalogModel := []
deriving DecidableEq

/-- The backticked fallback identity `schema`-dot-`name` (or `name` alone);
an empty `schema` string is falsy in JS and falls back to the name-only
form. -/
def fallbackTableName (m : AiCatalogModel) : String :=
  match m.schema with
  | some s => if s = "" then "`" ++ m.name ++ "`" else "`" ++ s ++ "`.`" ++ m.name ++ "`"
  | none => "`" ++ m.name ++ "`"

/-- Table identity of a model in `buildAllowlist`: `relation_name.trim()`
when truthy, else the backticked fallback. -/
def resolveTable (m : AiCatalogModel) : String :=
  match m.relation_name with
  | some r => if trimStr r = "" then fallbackTableName m else trimStr r
  | none => fallbackTableName m

/-- Column-name set of a model: keys of `columns` (a JS `Set` of
`Object.keys`). -/
def modelColumnNames (m : AiCatalogModel) : List String :=
  setOfList (m.columns.map Prod.fst)

/-- One iteration of the `buildAllowlist` loop. -/
def allowStep (acc : Allowlist) (m : AiCatalogModel) : Allowlist :=
  { tables := mapSet acc.tables (resolveTable m) (modelColumnNames m),
    modelToTable := mapSet acc.modelToTable m.name (resolveTable m) }

/-- Function `buildAllowlist` from `allowlist.ts`. -/
def buildAllowlist (catalog : AiCatalog) : Allowlist :=
  catalog.models.foldl allowStep ⟨[], []⟩

/-- The last model of the list resolving to the given table identity (the
model whose columns win under the last-write-wins `Map.set` semantics). -/
def lastResolving : List AiCatalogModel → String → Option AiCatalogModel
  | [], _ => none
  | m :: ms, t =>
    match lastResolving ms t with
    | some m' => some m'
    | none => if resolveTable m = t then some m else none

/-! ### Catalog search (`catalog-search.ts`) -/

/-- Description field test: truthy description whose lower-cased text
contains the whole query or any query word. -/
def descriptionMatches (m : AiCatalogModel) (queryLower : String) : Bool :=
  match m.description with
  | some d =>
    d ≠ "" &&
      (strContains (lowerStr d) queryLower ||
        (jsSplitWs queryLower).any (fun word => strContains (lowerStr d) word))
  | none => false

/-- One metric (already lower-cased) matches when some query word contains
it or is contained in it. -/
def nameTokenMatches (queryLower : String) (nameLower : String) : Bool :=
  (jsSplitWs queryLower).any
    (fun word => strContains nameLower word || strContains word nameLower)

/-- Number of metrics credited (+5 each, the inner loop breaks per metric). -/
def metricsHits (m : AiCatalogModel) (queryLower : String) : Nat :=
  match m.metrics with
  | some ms => ((ms.map lowerStr).filter (nameTokenMatches queryLower)).length
  | none => 0

/-- Number of dimensions credited (+3 each). -/
def dimensionsHits (m : AiCatalogModel) (queryLower : String) : Nat :=
  match m.dimensions with
  | some ds => ((ds.map lowerStr).filter (nameTokenMatches queryLower)).length
  | none => 0

/-- Grain field test (truthy grain, containment in either direction). -/
def grainMatches (m : AiCatalogModel) (queryLower : String) : Bool :=
  match m.grain with
  | some g =>
    g ≠ "" && (strContains queryLower (lowerStr g) || strContains (lowerStr g) queryLower)
  | none => false

/-- Domain field test (truthy domain contained in the query, one direction). -/
def domainMatches (m : AiCatalogModel) (queryLower : String) : Bool :=
  match m.domain with
  | some d => d ≠ "" && strContains queryLower (lowerStr d)
  | none => false

/-- One column's description test (truthy description, word containment in
either direction, the inner loop breaks per column). -/
def colDescMatches (queryLower : String) (ci : ColumnInfo) : Bool :=
  match ci.description with
  | some d =>
    d ≠ "" &&
      (jsSplitWs queryLower).any
        (fun word => strContains (lowerStr d) word || strContains word (lowerStr d))
  | none => false

/-- Number of columns credited (+2 each). -/
def columnsHits (m : AiCatalogModel) (queryLower : String) : Nat :=
  (m.columns.filter (fun p => colDescMatches queryLower p.2)).length

/-- Function `calculateRelevanceScore` from `catalog-search.ts`: additive
field-weighted score, plus the matched-field labels in source order. -/
def calculateRelevanceScore (m : AiCatalogModel) (query : String) : Nat × List String :=
  let queryLower := lowerStr query
  let dDesc := descriptionMatches m queryLower
  let nMet := metricsHits m queryLower
  let nDim := dimensionsHits m queryLower
  let bGrain := grainMatches m queryLower
  let bDom := domainMatches m queryLower
  let nCol := columnsHits m queryLower
  ((if dDesc then 10 else 0) + 5 * nMet + 3 * nDim +
     (if bGrain then 4 else 0) + (if bDom then 2 else 0) + 2 * nCol,
   (if dDesc then ["description"] else []) ++ (if nMet > 0 then ["metrics"] else []) ++
     (if nDim > 0 then ["dimensions"] else []) ++ (if bGrain then ["grain"] else []) ++
     (if bDom then ["domain"] else []) ++ (if nCol > 0 then ["columns"] else []))

/-- One entry of the search result list. -/
structure CatalogSearchResult where
  model : AiCatalogModel
  relevanceScore : Nat
  matchedFields : List String
deriving DecidableEq

def mkSearchResult (query : String) (m : AiCatalogModel) : CatalogSearchResult :=
  ⟨m, (calculateRelevanceScore m query).1, (calculateRelevanceScore m query).2⟩

/-- Stable insertion for the descending sort: a new element goes before the
first element whose score it reaches, hence after all earlier equal
scores. -/
def insertResult (x : CatalogSearchResult) : List CatalogSearchResult → List CatalogSearchResult
  | [] => [x]
  | y :: ys =>
    if y.relevanceScore ≤ x.relevanceScore then x :: y :: ys else y :: insertResult x ys

/-- The `Array.prototype.sort` call with comparator on `relevanceScore`
descending; `sort` is stable per the ECMAScript specification, modelled as a
stable insertion sort. -/
def sortByScoreDesc (l : List CatalogSearchResult) : List CatalogSearchResult :=
  l.foldr insertResult []

/-- Function `searchCatalog` from `catalog-search.ts` (the catalog, loaded
from disk in the source, is an explicit argument): keep the models of
strictly positive score, sort by score descending. -/
def searchCatalog (catalog : AiCatalog) (query : String) : List CatalogSearchResult :=
  sortByScoreDesc
    ((catalog.models.map (mkSearchResult query)).filter
      (fun r => decide (0 < r.relevanceScore)))

/-! ### SQL generator and orchestrator (`query-executor.ts`, `part_003`) -/

/-- Truthiness of `model.columns[key]` (the values are objects, hence
truthy exactly when the key is present). -/
def columnsHas (m : AiCatalogModel) (key : String) : Bool :=
  m.columns.any (fun p => p.1 == key)

def dimensionsOf (m : AiCatalogModel) : List String := m.dimensions.getD []

def metricsOf (m : AiCatalogModel) : List String := m.metrics.getD []

/-- Dimension projections: each dimension present in `columns`, verbatim. -/
def dimParts (m : AiCatalogModel) : List String :=
  (dimensionsOf m).filter (fun dim => columnsHas m dim)

/-- Aggregation chosen for one metric: `sum` when its meta type tag is
`metric` and its name contains `total` or `sum`, else `avg`. -/
def metricAgg (m : AiCatalogModel) (metric : String) : String :=
  let isSum :=
    (match mapLookup m.columns metric with
     | some ci =>
       match ci.meta with
       | some mt => mt.type == some "metric"
       | none => false
     | none => false)
    && (strContains (lowerStr metric) "total" || strContains (lowerStr metric) "sum")
  (if isSum then "sum" else "avg") ++ "(" ++ metric ++ ") AS " ++ metric

/-- Metric projections: each metric present in `columns`, aggregated. -/
def metricParts (m : AiCatalogModel) : List String :=
  (metricsOf m).filterMap
    (fun metric => if columnsHas m metric then some (metricAgg m metric) else none)

/-- Numeric-looking declared type: contains `float` or `int` (lower-cased);
a missing type is falsy. -/
def isNumericType (ci : ColumnInfo) : Bool :=
  match ci.data_type with
  | some dt => strContains (lowerStr dt) "float" || strContains (lowerStr dt) "int"
  | none => false

/-- The fallback projection loop over all columns: `avg` of numeric-looking
columns, re-adding dimension columns. -/
def fallbackParts (m : AiCatalogModel) : List String :=
  m.columns.filterMap
    (fun p =>
      if isNumericType p.2 then some ("avg(" ++ p.1 ++ ") AS " ++ p.1)
      else if (dimensionsOf m).contains p.1 then some p.1
      else none)

/-- The final `selectParts` array: dimensions then metrics, or the fallback
when that is empty. -/
def genSelectParts (m : AiCatalogModel) : List String :=
  let sp := dimParts m ++ metricParts m
  if sp.isEmpty then fallbackParts m else sp

/-- JS `Array.prototype.join(', ')`. -/
def joinComma : List String → String
  | [] => ""
  | [p] => p
  | p :: ps => p ++ ", " ++ joinComma ps

/-- SQL generation step of `queryExecutorTool.execute` (lines 40-97):
SELECT projection, FROM, optional GROUP BY over the dimension columns,
ORDER BY the first dimension else the first raw metric descending;
an empty projection is the `NO_COLUMNS` failure. -/
def genSql (m : AiCatalogModel) (relation : String) : Except String String :=
  let selectParts := genSelectParts m
  if selectParts.isEmpty then .error "NO_COLUMNS"
  else
    let groupByParts := dimParts m
    let sql0 := "SELECT " ++ joinComma selectParts ++ "\nFROM " ++ relation
    let sql1 :=
      if groupByParts.isEmpty then sql0
      else sql0 ++ "\nGROUP BY " ++ joinComma groupByParts
    .ok (match groupByParts with
         | g :: _ => sql1 ++ "\nORDER BY " ++ g
         | [] =>
           match metricsOf m with
           | mt :: _ => sql1 ++ "\nORDER BY " ++ mt ++ " DESC"
           | [] => sql1)

/-- Result shape the chat tools return to the model: a success record or a
tagged failure. -/
inductive ToolResponse where
  | success (modelName : Option String) (sql : String) (table : String)
      (referencedColumns : List String) (rowCount : Nat)
  | failure (error : String) (message : String)
deriving DecidableEq

/-- The pure pipeline of `queryExecutorTool.execute` up to (and including)
validation: catalog search, model pick, relation check (an empty
`relation_name` is falsy), SQL generation, `validateSql`. -/
def runQueryPipeline (catalog : AiCatalog) (query : String) :
    Except (String × String) (AiCatalogModel × String × ValidatedQuery) :=
  match searchCatalog catalog query with
  | [] => .error ("NO_MODEL_FOUND", "No matching models found for query: \"" ++ query ++ "\"")
  | r :: _ =>
    match r.model.relation_name with
    | none => .error ("NO_RELATION_NAME", "Model " ++ r.model.name ++ " has no relation_name")
    | some rel =>
      if rel = "" then
        .error ("NO_RELATION_NAME", "Model " ++ r.model.name ++ " has no relation_name")
      else
        match genSql r.model rel with
        | .error _ => .error ("NO_COLUMNS", "Model " ++ r.model.name ++ " has no usable columns")
        | .ok sql =>
          match validateSql sql (buildAllowlist catalog) with
          | .error msg => .error ("SQL_VALIDATION_ERROR", msg)
          | .ok v => .ok (r.model, sql, v)

/-- Function `queryExecutorTool.execute` (natural-language entry point),
with the execution client `exec` as an argument; the boolean records
whether `runSelect` was invoked. -/
def queryExecutorExecute (catalog : AiCatalog) (query : String)
    (exec : String → Except String Nat) : ToolResponse × Bool :=
  match runQueryPipeline catalog query with
  | .error (code, msg) => (.failure code msg, false)
  | .ok (m, sql, v) =>
    match exec sql with
    | .error msg => (.failure "EXECUTION_ERROR" msg, true)
    | .ok n => (.success (some m.name) sql v.table v.referencedColumns n, true)

/-- Function `sqlExecutorTool.execute` (direct-SQL entry point) from
`part_003`. -/
def sqlExecutorExecute (catalog : AiCatalog) (sqlIn : String)
    (exec : String → Except String Nat) : ToolResponse × Bool :=
  match validateSql sqlIn (buildAllowlist catalog) with
  | .error msg => (.failure "SQL_VALIDATION_ERROR" msg, false)
  | .ok v =>
    match exec sqlIn with
    | .error msg => (.failure "EXECUTION_ERROR" msg, true)
    | .ok n => (.success none sqlIn v.table v.referencedColumns n, true)

/-! ### Concrete inputs used by the claim theorems -/

/-- Two models resolving to the same table identity (C7 witness). -/
def c7m1 : AiCatalogModel :=
  { name := "a", relation_name := some "`db`.`t`", columns := [("c1", {})] }

def c7m2 : AiCatalogModel :=
  { name := "b", relation_name := some "`db`.`t`", columns := [("c2", {})] }

def c7cat : AiCatalog := { version := 1, generated_at := "x", models := [c7m1, c7m2] }

/-- A model with a surviving dimension, no metrics, and an unused numeric
column (C9 counterexample). -/
def c9model : AiCatalogModel :=
  { name := "m", relation_name := some "`db`.`t`",
    dimensions := some ["d"], metrics := some ([] : List String),
    columns := [("d", { data_type := some "String" }),
                ("x", { data_type := some "Float64" })] }

/-- A model with neither dimensions nor metrics but one numeric column
(C9 witness). -/
def c9wModel : AiCatalogModel :=
  { name := "w", columns := [("x", { data_type := some "Int64" })] }

/-- An empty catalog: every search misses (C6 witness). -/
def c6catalog : AiCatalog := { version := 1, generated_at := "x", models := [] }

/-- A trivial execution client stub (C6 witness). -/
def c6exec : String → Except String Nat := fun _ => .ok 0

/-- Allowlist whose only table is the quoted `db`-dot-`t` (C10). -/
def alC10 : Allowlist := ⟨[("`db`.`t`", ["a"])], []⟩

/-! ### Concrete allowlists used by the claim theorems -/

/-- Allowlist used in the C1 counterexample: table `t` with the single
column `a`. -/
def alC1 : Allowlist := ⟨[("t", ["a"])], []⟩

/-- Allowlist for scenario C: `allowedT` is allowlisted with column `a`. -/
def alC3 : Allowlist := ⟨[("allowedT", ["a"])], []⟩

/-- Allowlist for the C4 witness: a quoted table key unrelated to
`unknown_table`. -/
def alC4 : Allowlist := ⟨[("`db`.`t`", ["a"])], []⟩

/-- Allowlist for C5: table `T` with exactly the columns `a` and `b`. -/
def alC5 : Allowlist := ⟨[("T", ["a", "b"])], []⟩

/-! ### Validator theorems (claims C1 to C5) -/


/-- C1 counterexample.  The claim asserts rejection for every SQL string
that contains a denylisted keyword as a standalone word, regardless of the
surrounding content; but `normalize` strips comments before the keyword
scan runs, so `drop` inside a line comment is never seen and the query is
accepted. -/
theorem C1_counterexample :
    "drop" ∈ FORBIDDEN_KEYWORDS ∧
    containsWordCI "SELECT a FROM t -- drop" "drop" = true ∧
    validateSql "SELECT a FROM t -- drop" alC1 = .ok ⟨"t", ["a"]⟩ :=
  ⟨by decide, by decide, rfl⟩

/-- C1 (amended): for every SQL string whose NORMALIZED form (comments
stripped, whitespace collapsed) contains a denylisted keyword as a
standalone word (case-insensitively), and for every allowlist, `validateSql`
rejects with some `SqlValidationError`. -/
theorem C1_amended_forbidden_keyword_rejects (sql : String) (al : Allowlist)
    (kw : String) (hmem : kw ∈ FORBIDDEN_KEYWORDS)
    (hword : containsWordCI (lower (normalize sql)) kw = true) :
    ∃ e, validateSql sql al = .error e := by
  simp only [validateSql]
  split
  · exact ⟨_, rfl⟩
  split
  · exact ⟨_, rfl⟩
  split
  · exact ⟨_, rfl⟩
  split
  · exact ⟨_, rfl⟩
  · rename_i heq
    simp only [containsForbidden] at heq
    exact absurd hword (List.find?_eq_none.mp heq kw hmem)

/-- Witness for the amended C1 theorem at a concrete input: `drop` occurs
as a standalone word of the normalized query, and validation errors. -/
theorem C1_amended_witness :
    ∃ e, validateSql "SELECT a FROM t WHERE drop = 1" alC1 = .error e :=
  C1_amended_forbidden_keyword_rejects "SELECT a FROM t WHERE drop = 1" alC1
    "drop" (by decide) (by decide)

/-- C2: for every allowlist, `validateSql "SELECT * FROM T"` rejects with
the explicit-columns-required reason — the select-star gate runs before the
allowlist is ever consulted, so the result does not depend on it. -/
theorem C2_no_wildcard (al : Allowlist) :
    validateSql "SELECT * FROM T" al =
      .error "SELECT * is not allowed. Specify columns explicitly." := rfl

/-- C3: for every SQL string whose normalized form contains a semicolon
anywhere, and for every allowlist, `validateSql` rejects with the
multi-statement reason (no trailing-semicolon exception). -/
theorem C3_multi_statement_rejects (sql : String) (al : Allowlist)
    (h : hasMultiStatement (normalize sql) = true) :
    validateSql sql al = .error "Multi-statement SQL is not allowed." := by
  have hne : ¬ (normalize sql = "") := by
    intro he
    rw [he] at h
    exact absurd h (by decide)
  simp only [validateSql]
  rw [if_neg hne, if_pos h]


/-- Witness for C3 (scenario C): the injection attempt is rejected at the
multi-statement gate — the reported reason is the multi-statement one even
though `allowedT` is allowlisted, so the table/column gates were never
reached. -/
theorem C3_multi_statement_witness :
    hasMultiStatement (normalize "SELECT a FROM allowedT; DROP TABLE allowedT") = true ∧
    validateSql "SELECT a FROM allowedT; DROP TABLE allowedT" alC3 =
      .error "Multi-statement SQL is not allowed." :=
  ⟨by decide,
   C3_multi_statement_rejects "SELECT a FROM allowedT; DROP TABLE allowedT" alC3 (by decide)⟩

/-- C4: for every allowlist none of whose table keys strips (backticks and
double quotes removed) to `unknown_table`, validating
`SELECT x FROM unknown_table` rejects with the table-not-allowlisted
reason; the comparison against allowlist keys is quote-insensitive. -/
theorem C4_unknown_table_rejected (al : Allowlist)
    (h : ∀ p ∈ al.tables, stripQuotesTable p.1 ≠ "unknown_table") :
    validateSql "SELECT x FROM unknown_table" al =
      .error "Table is not allowlisted: unknown_table" := by
  have hf : al.tables.find? (fun p => stripQuotesTable p.1 == "unknown_table") = none := by
    rw [List.find?_eq_none]
    intro p hp
    simp only [beq_iff_eq]
    exact h p hp
  have hstep : validateSql "SELECT x FROM unknown_table" al =
      (match al.tables.find? (fun p => stripQuotesTable p.1 == "unknown_table") with
       | none => Except.error ("Table is not allowlisted: " ++ "unknown_table")
       | some hit =>
         checkColumns hit.1 hit.2
           (findReferencedColumns "SELECT x FROM unknown_table" "unknown_table")) := rfl
  rw [hstep, hf]
  rfl


/-- Witness for C4 at a concrete allowlist. -/
theorem C4_unknown_table_witness :
    validateSql "SELECT x FROM unknown_table" alC4 =
      .error "Table is not allowlisted: unknown_table" :=
  C4_unknown_table_rejected alC4 (by decide)


/-- C5: with allowlist `T : a and b only`, `SELECT a, c FROM T` is rejected
naming column `c`, while `SELECT a, b FROM T` succeeds returning table `T`
with referenced columns containing both `a` and `b`. -/
theorem C5_column_gate :
    validateSql "SELECT a, c FROM T" alC5 = .error "Column is not allowlisted: c" ∧
    ∃ v, validateSql "SELECT a, b FROM T" alC5 = .ok v ∧ v.table = "T" ∧
      "a" ∈ v.referencedColumns ∧ "b" ∈ v.referencedColumns :=
  ⟨rfl, ⟨⟨"T", ["a", "b"]⟩, rfl, rfl, by decide, by decide⟩⟩

/-! ### Allowlist-builder theorems (claim C7) -/

theorem mapLookup_mapSet {α : Type} (l : List (String × α)) (k k1 : String) (v : α) :
    mapLookup (mapSet l k v) k1 = if k1 = k then some v else mapLookup l k1 := by
  induction l with
  | nil =>
    simp only [mapSet, mapLookup]
    by_cases h : k = k1
    · rw [if_pos h, if_pos h.symm]
    · rw [if_neg h, if_neg (fun hh => h hh.symm)]
  | cons p rest ih =>
    rcases p with ⟨k0, v0⟩
    simp only [mapSet]
    by_cases h0 : k0 = k
    · rw [if_pos h0]
      subst h0
      simp only [mapLookup]
      by_cases h1 : k0 = k1
      · rw [if_pos h1, if_pos h1.symm]
      · rw [if_neg h1, if_neg (fun hh => h1 hh.symm), if_neg h1]
    · rw [if_neg h0]
      simp only [mapLookup]
      by_cases h1 : k0 = k1
      · have hk1 : ¬ (k1 = k) := fun hh => h0 (h1.trans hh)
        rw [if_pos h1, if_neg hk1, if_pos h1]
      · rw [if_neg h1, ih, if_neg h1]

theorem tables_lookup_foldl (t : String) :
    ∀ (ms : List AiCatalogModel) (acc : Allowlist),
      mapLookup (ms.foldl allowStep acc).tables t =
        (match lastResolving ms t with
         | some m' => some (modelColumnNames m')
         | none => mapLookup acc.tables t) := by
  intro ms
  induction ms with
  | nil => intro acc; rfl
  | cons m ms ih =>
    intro acc
    rw [List.foldl_cons, ih (allowStep acc m)]
    simp only [lastResolving]
    cases hl : lastResolving ms t with
    | some m' => rfl
    | none =>
      show mapLookup (mapSet acc.tables (resolveTable m) (modelColumnNames m)) t = _
      rw [mapLookup_mapSet]
      by_cases h : resolveTable m = t
      · rw [if_pos h.symm, if_pos h]
      · rw [if_neg (fun hh => h hh.symm), if_neg h]

theorem lastResolving_isSome (m : AiCatalogModel) :
    ∀ ms : List AiCatalogModel, m ∈ ms → (lastResolving ms (resolveTable m)).isSome = true := by
  intro ms
  induction ms with
  | nil => intro h; cases h
  | cons m0 ms ih =>
    intro hmem
    simp only [lastResolving]
    cases hl : lastResolving ms (resolveTable m) with
    | some m' => rfl
    | none =>
      rcases List.mem_cons.mp hmem with h | h
      · subst h
        rw [if_pos rfl]
        rfl
      · have := ih h
        rw [hl] at this
        cases this

/-- C7: for every catalog and every model of it, the built allowlist has an
entry keyed by the model's resolved table identity — computed with
precedence trimmed `relation_name` over backticked `schema`-dot-`name` over
backticked `name` (see `resolveTable`) — whose value is exactly the column
key set of the LAST model in catalog order resolving to that identity
(`Map.set` last-write-wins); dimensions and metrics are never consulted. -/
theorem C7_allowlist_completeness (catalog : AiCatalog) (m : AiCatalogModel)
    (hm : m ∈ catalog.models) :
    ∃ m', lastResolving catalog.models (resolveTable m) = some m' ∧
      mapLookup (buildAllowlist catalog).tables (resolveTable m) =
        some (modelColumnNames m') := by
  have hs := lastResolving_isSome m catalog.models hm
  cases ho : lastResolving catalog.models (resolveTable m) with
  | none =>
    rw [ho] at hs
    cases hs
  | some m' =>
    refine ⟨m', rfl, ?_⟩
    unfold buildAllowlist
    rw [tables_lookup_foldl (resolveTable m) catalog.models ⟨[], []⟩, ho]

/-- Witness for C7: in a catalog where two models resolve to the same table,
the theorem applies to the first model, and the stored column set is that of
the second (later) model. -/
theorem C7_allowlist_completeness_witness :
    (∃ m', lastResolving c7cat.models (resolveTable c7m1) = some m' ∧
       mapLookup (buildAllowlist c7cat).tables (resolveTable c7m1) =
         some (modelColumnNames m')) ∧
    mapLookup (buildAllowlist c7cat).tables "`db`.`t`" = some ["c2"] :=
  ⟨C7_allowlist_completeness c7cat c7m1 (by decide), by decide⟩

/-! ### SQL generator theorems (claim C9) -/

/-- C9 counterexample.  The claim asserts the numeric-`avg` fallback
whenever zero METRICS were selected; in the code the fallback fires only
when the whole projection is empty, so a model with a surviving dimension,
no metrics and a numeric column keeps the dimension-only projection and
never aggregates the numeric column. -/
theorem C9_counterexample :
    metricParts c9model = [] ∧
    fallbackParts c9model = ["d", "avg(x) AS x"] ∧
    genSelectParts c9model = ["d"] ∧
    genSql c9model "`db`.`t`" = .ok "SELECT d\nFROM `db`.`t`\nGROUP BY d\nORDER BY d" ∧
    strContains "SELECT d\nFROM `db`.`t`\nGROUP BY d\nORDER BY d" "avg" = false :=
  ⟨rfl, rfl, rfl, rfl, by decide⟩

/-- C9 (amended): the fallback projection is used exactly when NO column at
all was selected (neither a dimension nor a metric part), and generation
fails with `NO_COLUMNS` exactly when that fallback is empty too. -/
theorem C9_amended_fallback (m : AiCatalogModel) (relation : String)
    (hdim : dimParts m = []) (hmet : metricParts m = []) :
    genSelectParts m = fallbackParts m ∧
    (genSql m relation = .error "NO_COLUMNS" ↔ fallbackParts m = []) := by
  have hsel : genSelectParts m = fallbackParts m := by
    unfold genSelectParts
    rw [hdim, hmet]
    simp
  refine ⟨hsel, ?_⟩
  unfold genSql
  rw [hsel]
  cases hf : fallbackParts m with
  | nil => simp
  | cons p ps => simp

/-- Witness for the amended C9 theorem: a model with no dimensions and no
metrics takes the fallback projection, which is non-empty here. -/
theorem C9_amended_witness :
    genSelectParts c9wModel = fallbackParts c9wModel ∧
    (genSql c9wModel "`db`.`w`" = .error "NO_COLUMNS" ↔ fallbackParts c9wModel = []) :=
  C9_amended_fallback c9wModel "`db`.`w`" rfl rfl

/-! ### Catalog-search theorems (claim C8) -/

theorem insertResult_perm (x : CatalogSearchResult) (l : List CatalogSearchResult) :
    (insertResult x l).Perm (x :: l) := by
  induction l with
  | nil => exact List.Perm.refl _
  | cons y ys ih =>
    simp only [insertResult]
    split
    · exact List.Perm.refl _
    · exact (ih.cons y).trans (List.Perm.swap x y ys)

theorem sortByScoreDesc_perm (l : List CatalogSearchResult) :
    (sortByScoreDesc l).Perm l := by
  induction l with
  | nil => exact List.Perm.refl _
  | cons x xs ih =>
    have hstep : sortByScoreDesc (x :: xs) = insertResult x (sortByScoreDesc xs) := rfl
    rw [hstep]
    exact (insertResult_perm x (sortByScoreDesc xs)).trans (ih.cons x)

/-- Score order of the result list: descending relevance. -/
def scoreGe (a b : CatalogSearchResult) : Prop :=
  b.relevanceScore ≤ a.relevanceScore

theorem mem_insertResult {z x : CatalogSearchResult} {l : List CatalogSearchResult}
    (h : z ∈ insertResult x l) : z = x ∨ z ∈ l :=
  List.mem_cons.mp ((insertResult_perm x l).mem_iff.mp h)

theorem insertResult_pairwise (x : CatalogSearchResult) (l : List CatalogSearchResult)
    (h : l.Pairwise scoreGe) : (insertResult x l).Pairwise scoreGe := by
  induction l with
  | nil => simp [insertResult, List.Pairwise]
  | cons y ys ih =>
    simp only [insertResult]
    split
    · rename_i hle
      refine List.Pairwise.cons ?_ h
      intro z hz
      rcases List.mem_cons.mp hz with hzy | hzys
      · rw [hzy]
        exact hle
      · exact Nat.le_trans (List.rel_of_pairwise_cons h hzys) hle
    · rename_i hgt
      have hxy : x.relevanceScore ≤ y.relevanceScore :=
        Nat.le_of_lt (Nat.lt_of_not_le hgt)
      refine List.Pairwise.cons ?_ (ih h.of_cons)
      intro z hz
      rcases mem_insertResult hz with hzx | hzys
      · rw [hzx]
        exact hxy
      · exact List.rel_of_pairwise_cons h hzys

theorem sortByScoreDesc_pairwise (l : List CatalogSearchResult) :
    (sortByScoreDesc l).Pairwise scoreGe := by
  induction l with
  | nil => simp [sortByScoreDesc, List.Pairwise]
  | cons x xs ih => exact insertResult_pairwise x (sortByScoreDesc xs) ih

/-- Restriction of a result list to one score value, used to state that the
sort is stable. -/
def scoreFilter (s : Nat) (l : List CatalogSearchResult) : List CatalogSearchResult :=
  l.filter (fun r => r.relevanceScore == s)

theorem scoreFilter_insertResult (s : Nat) (x : CatalogSearchResult)
    (l : List CatalogSearchResult) :
    scoreFilter s (insertResult x l) =
      if x.relevanceScore == s then x :: scoreFilter s l else scoreFilter s l := by
  induction l with
  | nil => simp [insertResult, scoreFilter, List.filter_cons]
  | cons y ys ih =>
    simp only [insertResult]
    split
    · rename_i hle
      simp only [scoreFilter]
      rw [List.filter_cons]
    · rename_i hgt
      have hlt : x.relevanceScore < y.relevanceScore := Nat.lt_of_not_le hgt
      simp only [scoreFilter] at ih ⊢
      by_cases hx : x.relevanceScore = s
      · have hxb : (x.relevanceScore == s) = true := beq_iff_eq.mpr hx
        have hyb : (y.relevanceScore == s) = false := beq_eq_false_iff_ne.mpr (by omega)
        rw [List.filter_cons, List.filter_cons, hyb, hxb, ih, hxb]
        simp
      · have hxb : (x.relevanceScore == s) = false := beq_eq_false_iff_ne.mpr hx
        rw [List.filter_cons, List.filter_cons, hxb, ih, hxb]
        simp

theorem scoreFilter_sortByScoreDesc (s : Nat) (l : List CatalogSearchResult) :
    scoreFilter s (sortByScoreDesc l) = scoreFilter s l := by
  induction l with
  | nil => rfl
  | cons x xs ih =>
    have hstep : sortByScoreDesc (x :: xs) = insertResult x (sortByScoreDesc xs) := rfl
    rw [hstep, scoreFilter_insertResult, ih]
    simp only [scoreFilter]
    rw [List.filter_cons]

/-- C8: `searchCatalog` returns exactly the models of strictly positive
computed relevance score (as a permutation of the filtered, catalog-ordered
list), in descending score order, and stably: for each score value the
returned sublist of that score equals the catalog-ordered one. -/
theorem C8_search_ranked_stable (catalog : AiCatalog) (query : String) :
    (searchCatalog catalog query).Perm
      ((catalog.models.map (mkSearchResult query)).filter
        (fun r => decide (0 < r.relevanceScore))) ∧
    (searchCatalog catalog query).Pairwise scoreGe ∧
    ∀ s : Nat,
      scoreFilter s (searchCatalog catalog query) =
        scoreFilter s ((catalog.models.map (mkSearchResult query)).filter
          (fun r => decide (0 < r.relevanceScore))) := by
  refine ⟨sortByScoreDesc_perm _, sortByScoreDesc_pairwise _, ?_⟩
  intro s
  exact scoreFilter_sortByScoreDesc s _

/-! ### Orchestrator theorems (claim C6) -/

theorem runQueryPipeline_ok_validated (catalog : AiCatalog) (query : String)
    (m : AiCatalogModel) (sql : String) (v : ValidatedQuery)
    (h : runQueryPipeline catalog query = .ok (m, sql, v)) :
    validateSql sql (buildAllowlist catalog) = .ok v := by
  unfold runQueryPipeline at h
  split at h
  · cases h
  · split at h
    · cases h
    · split at h
      · cases h
      · split at h
        · cases h
        · split at h
          · cases h
          · rename_i hv
            simp only [Except.ok.injEq, Prod.mk.injEq] at h
            rcases h with ⟨-, h2, h3⟩
            rw [← h2, ← h3] at *
            exact hv

/-- C6: in both orchestrator entry points the execution client runs only
after `validateSql` succeeded on the same SQL string: an empty catalog
search yields `NO_MODEL_FOUND` without executing; whenever execution was
invoked, a successful validation of the executed SQL exists; and a
validation rejection yields `SQL_VALIDATION_ERROR` without executing. -/
theorem C6_validation_gates_execution (catalog : AiCatalog) (query sqlIn : String)
    (exec : String → Except String Nat) :
    (searchCatalog catalog query = [] →
      queryExecutorExecute catalog query exec =
        (.failure "NO_MODEL_FOUND"
          ("No matching models found for query: \"" ++ query ++ "\""), false)) ∧
    ((queryExecutorExecute catalog query exec).2 = true →
      ∃ sql v, validateSql sql (buildAllowlist catalog) = .ok v) ∧
    (∀ msg, runQueryPipeline catalog query = .error ("SQL_VALIDATION_ERROR", msg) →
      queryExecutorExecute catalog query exec = (.failure "SQL_VALIDATION_ERROR" msg, false)) ∧
    ((sqlExecutorExecute catalog sqlIn exec).2 = true →
      ∃ v, validateSql sqlIn (buildAllowlist catalog) = .ok v) ∧
    (∀ msg, validateSql sqlIn (buildAllowlist catalog) = .error msg →
      sqlExecutorExecute catalog sqlIn exec = (.failure "SQL_VALIDATION_ERROR" msg, false)) := by
  refine ⟨?_, ?_, ?_, ?_, ?_⟩
  · intro h
    unfold queryExecutorExecute runQueryPipeline
    rw [h]
  · intro h
    unfold queryExecutorExecute at h
    cases hp : runQueryPipeline catalog query with
    | error e =>
      rw [hp] at h
      cases h
    | ok triple =>
      rcases triple with ⟨m, sql, v⟩
      exact ⟨sql, v, runQueryPipeline_ok_validated catalog query m sql v hp⟩
  · intro msg h
    unfold queryExecutorExecute
    rw [h]
  · intro h
    unfold sqlExecutorExecute at h
    cases hv : validateSql sqlIn (buildAllowlist catalog) with
    | error e =>
      rw [hv] at h
      cases h
    | ok v => exact ⟨v, rfl⟩
  · intro msg h
    unfold sqlExecutorExecute
    rw [h]

/-- Witness for C6: on the empty catalog the natural-language entry point
returns `NO_MODEL_FOUND` with the exec flag false, and the direct-SQL entry
point rejects a non-SELECT string with the exec flag false. -/
theorem C6_validation_gates_witness :
    queryExecutorExecute c6catalog "ltv by week" c6exec =
      (.failure "NO_MODEL_FOUND"
        "No matching models found for query: \"ltv by week\"", false) ∧
    sqlExecutorExecute c6catalog "DROP TABLE x" c6exec =
      (.failure "SQL_VALIDATION_ERROR" "Only SELECT queries are allowed.", false) :=
  ⟨(C6_validation_gates_execution c6catalog "ltv by week" "DROP TABLE x" c6exec).1 rfl,
   (C6_validation_gates_execution c6catalog "ltv by week" "DROP TABLE x" c6exec).2.2.2.2
     "Only SELECT queries are allowed." rfl⟩

/-! ### Column-extraction theorems (claim C10) -/

theorem toNat_ofNatAux (n : Nat) (h : n.isValidChar) : (Char.ofNatAux n h).toNat = n := by
  simp [Char.ofNatAux, Char.toNat, UInt32.toNat, UInt32.ofNatCore]

theorem toNat_ofNat_valid (n : Nat) (h : n.isValidChar) : (Char.ofNat n).toNat = n := by
  unfold Char.ofNat
  rw [dif_pos h]
  exact toNat_ofNatAux n h

/-- ASCII lower casing maps no character onto the dot. -/
theorem toLower_eq_dot_iff (c : Char) : Char.toLower c = '.' ↔ c = '.' := by
  constructor
  · intro h
    simp only [Char.toLower] at h
    split at h
    · rename_i hcond
      exfalso
      have hv : (c.toNat + 32).isValidChar := by
        left
        omega
      have h2 := congrArg Char.toNat h
      rw [toNat_ofNat_valid _ hv] at h2
      have h46 : ('.' : Char).toNat = 46 := by decide
      omega
    · exact h
  · intro h
    subst h
    decide

theorem splitDotsChars_map_toLower (cs : List Char) :
    splitDotsChars (cs.map Char.toLower) = (splitDotsChars cs).map (List.map Char.toLower) := by
  induction cs with
  | nil => rfl
  | cons c cs ih =>
    by_cases hc : c = '.'
    · subst hc
      have hdot : Char.toLower '.' = '.' := by decide
      simp only [List.map_cons, hdot, splitDotsChars, if_pos]
      rw [ih]
      rfl
    · have hlc : ¬ (Char.toLower c = '.') := fun h => hc ((toLower_eq_dot_iff c).mp h)
      simp only [List.map_cons, splitDotsChars, if_neg hlc, if_neg hc, ih]
      cases hsp : splitDotsChars cs with
      | nil => rfl
      | cons p ps => rfl

theorem splitDotsChars_ne_nil (cs : List Char) : splitDotsChars cs ≠ [] := by
  induction cs with
  | nil => simp [splitDotsChars]
  | cons c cs ih =>
    simp only [splitDotsChars]
    by_cases h : c = '.'
    · rw [if_pos h]
      simp
    · rw [if_neg h]
      cases hsp : splitDotsChars cs <;> simp

theorem splitDots_ne_nil (s : String) : splitDots s ≠ [] := by
  unfold splitDots
  intro h
  exact splitDotsChars_ne_nil s.data (List.map_eq_nil_iff.mp h)

theorem splitDotsChars_no_dot (cs : List Char) (h : '.' ∉ cs) : splitDotsChars cs = [cs] := by
  induction cs with
  | nil => rfl
  | cons c cs ih =>
    have hc : ¬ (c = '.') := fun hh => h (by rw [hh]; exact List.mem_cons_self _ _)
    simp only [splitDotsChars]
    rw [if_neg hc, ih (fun hm => h (List.mem_cons_of_mem c hm))]

/-- Lower casing commutes with the dot split. -/
theorem splitDots_lowerStr (s : String) :
    splitDots (lowerStr s) = (splitDots s).map lowerStr := by
  unfold splitDots lowerStr
  rw [show (String.mk (s.data.map Char.toLower)).data = s.data.map Char.toLower from rfl]
  rw [splitDotsChars_map_toLower, List.map_map, List.map_map]
  rfl

theorem lastSeg_map (f : String → String) :
    ∀ l : List String, l ≠ [] → lastSeg (l.map f) = f (lastSeg l) := by
  intro l
  induction l with
  | nil => intro h; cases h rfl
  | cons p ps ih =>
    intro _
    cases ps with
    | nil => rfl
    | cons q qs =>
      show lastSeg (List.map f (q :: qs)) = f (lastSeg (q :: qs))
      exact ih (by simp)

theorem lastSeg_mem : ∀ l : List String, l ≠ [] → lastSeg l ∈ l := by
  intro l
  induction l with
  | nil => intro h; cases h rfl
  | cons p ps ih =>
    intro _
    cases ps with
    | nil => simp [lastSeg]
    | cons q qs => exact List.mem_cons_of_mem p (ih (by simp))

theorem mem_addUnique {l : List String} {x c : String} (h : c ∈ addUnique l x) :
    c ∈ l ∨ c = x := by
  unfold addUnique at h
  split at h
  · exact Or.inl h
  · rcases List.mem_append.mp h with h1 | h2
    · exact Or.inl h1
    · exact Or.inr (List.mem_singleton.mp h2)

theorem mem_collectCols (fp : List String) (fts : String) :
    ∀ (toks : List String) (acc : List String) (c : String),
      c ∈ toks.foldl
            (fun cols tok =>
              if tokenKept fp fts tok then addUnique cols (lastSegment tok) else cols)
            acc →
      c ∈ acc ∨ ∃ tok, tok ∈ toks ∧ tokenKept fp fts tok = true ∧ c = lastSegment tok := by
  intro toks
  induction toks with
  | nil => intro acc c h; exact Or.inl h
  | cons t ts ih =>
    intro acc c h
    rw [List.foldl_cons] at h
    by_cases hk : tokenKept fp fts t = true
    · rw [if_pos hk] at h
      rcases ih _ c h with hacc | ⟨tok, htok, hkept, hc⟩
      · rcases mem_addUnique hacc with h1 | h2
        · exact Or.inl h1
        · exact Or.inr ⟨t, List.mem_cons_self t ts, hk, h2⟩
      · exact Or.inr ⟨tok, List.mem_cons_of_mem t htok, hkept, hc⟩
    · rw [if_neg hk] at h
      rcases ih _ c h with hacc | ⟨tok, htok, hkept, hc⟩
      · exact Or.inl hacc
      · exact Or.inr ⟨tok, List.mem_cons_of_mem t htok, hkept, hc⟩

/-- A kept token has no lower-cased dotted segment among the FROM-clause
segments. -/
theorem tokenKept_any_false (fp : List String) (fts tok : String)
    (h : tokenKept fp fts tok = true) :
    (splitDots (lowerStr tok)).any (fun part => fp.contains part) = false := by
  simp only [tokenKept] at h
  split at h
  · cases h
  · split at h
    · cases h
    · split at h
      · cases h
      · rename_i hc
        exact Bool.eq_false_iff.mpr hc

/-- The column name a kept token contributes is, lower-cased, not a
FROM-clause segment. -/
theorem tokenKept_lastSegment_not_table_part (fp : List String) (fts tok : String)
    (h : tokenKept fp fts tok = true) :
    fp.contains (lowerStr (lastSegment tok)) = false := by
  have hany := tokenKept_any_false fp fts tok h
  unfold lastSegment
  by_cases hd : strContainsChar tok '.' = true
  · rw [if_pos hd]
    have hne : splitDots tok ≠ [] := splitDots_ne_nil tok
    have hcomm : lowerStr (lastSeg (splitDots tok)) = lastSeg (splitDots (lowerStr tok)) := by
      rw [splitDots_lowerStr]
      exact (lastSeg_map lowerStr (splitDots tok) hne).symm
    rw [hcomm]
    have hmem : lastSeg (splitDots (lowerStr tok)) ∈ splitDots (lowerStr tok) :=
      lastSeg_mem _ (by
        rw [splitDots_lowerStr]
        exact fun hnil => hne (List.map_eq_nil_iff.mp hnil))
    exact Bool.eq_false_iff.mpr (List.any_eq_false.mp hany _ hmem)
  · rw [if_neg hd]
    have hnodot : '.' ∉ (lowerStr tok).data := by
      intro hmem
      apply hd
      rcases List.mem_map.mp hmem with ⟨c, hcmem, hlc⟩
      have hcdot : c = '.' := (toLower_eq_dot_iff c).mp hlc
      subst hcdot
      simpa [strContainsChar] using hcmem
    have hsingle : splitDots (lowerStr tok) = [lowerStr tok] := by
      unfold splitDots
      rw [splitDotsChars_no_dot _ hnodot]
      rfl
    rw [hsingle] at hany
    simpa using hany

/-- C10 (implicit): every returned referenced column comes from a token the
extraction loop KEPT — in particular one none of whose lower-cased dotted
segments is a FROM-clause table or schema segment (see `tokenKept`) — so an
identifier sharing a name with the matched table or its schema is never
column-checked and never appears in `referencedColumns`; validation can
succeed although such an identifier is not an allowlisted column. -/
theorem C10_table_name_identifiers_skipped :
    (∀ nsql ft c : String, c ∈ findReferencedColumns nsql ft →
      ∃ tok, tok ∈ tokenize nsql ∧
        tokenKept (fromPartsOf ft) (lowerStr (stripQuotesTable ft)) tok = true ∧
        c = lastSegment tok) ∧
    (∀ nsql ft c : String, c ∈ findReferencedColumns nsql ft →
      (fromPartsOf ft).contains (lowerStr c) = false) ∧
    ("db" ∈ tokenize "SELECT a, db FROM db.t" ∧
      (fromPartsOf "db.t").contains (lowerStr "db") = true ∧
      validateSql "SELECT a, db FROM db.t" alC10 = .ok ⟨"`db`.`t`", ["a"]⟩ ∧
      "db" ∉ (["a"] : List String)) := by
  have hpart1 : ∀ nsql ft c : String, c ∈ findReferencedColumns nsql ft →
      ∃ tok, tok ∈ tokenize nsql ∧
        tokenKept (fromPartsOf ft) (lowerStr (stripQuotesTable ft)) tok = true ∧
        c = lastSegment tok := by
    intro nsql ft c hc
    simp only [findReferencedColumns] at hc
    rcases mem_collectCols _ _ _ _ _ hc with h0 | hex
    · cases h0
    · exact hex
  refine ⟨hpart1, ?_, by decide, by decide, rfl, by decide⟩
  intro nsql ft c hc
  rcases hpart1 nsql ft c hc with ⟨tok, -, hkept, hc2⟩
  rw [hc2]
  exact tokenKept_lastSegment_not_table_part _ _ _ hkept

/-- Witness for C10 at a concrete query: the returned column `a` comes from
a kept token, and its name is not a table or schema segment. -/
theorem C10_witness :
    (∃ tok, tok ∈ tokenize "SELECT a, db FROM db.t" ∧
        tokenKept (fromPartsOf "db.t") (lowerStr (stripQuotesTable "db.t")) tok = true ∧
        "a" = lastSegment tok) ∧
    (fromPartsOf "db.t").contains (lowerStr "a") = false :=
  ⟨(C10_table_name_identifiers_skipped).1 "SELECT a, db FROM db.t" "db.t" "a" (by decide),
   (C10_table_name_identifiers_skipped).2.1 "SELECT a, db FROM db.t" "db.t" "a" (by decide)⟩

end AiAnalytics
